import Mathlib

/-!
Verification development for the `for-else` source-to-source transformer.

The repository provides two procedural macros, `for_!` and `while_!`, that add a
loop-else construct to Rust.  The development below shallowly embeds the two core
components described in the specification:

* the boundary resolver (`ForLoop::parse` / `WhileLoop::parse` in `src/lib.rs`),
  which scans a token run for the first position where the remainder has the
  shape `{ body } else { else-block }`, and
* the break rewriter (`modify_breaks_in_block`, `modify_breaks_in_expression`,
  `modify_single_break` in `src/lib.rs`), which walks the parsed body and inserts
  a completion-flag assignment before every break that is classified as
  targeting the construct,

together with the emission shape of the two macros and a fuel-based evaluator
for the embedded syntax, used to run the generated code on concrete inputs.

Token trees are modelled after `proc_macro2::TokenTree`: an identifier, a
punctuation token, a lifetime token, or a delimited group.  The host language
parser (the `syn` crate) is external to the repository; where the embedding
needs it, it is modelled from the specification, which states that the core
"only needs enough grammar awareness to (1) recognize block boundaries and the
`else` keyword, and (2) recognize break/control-flow-bearing statement shapes".
-/

/-- Delimiters of a token group, after `proc_macro2::Delimiter`. -/
inductive Delim where
  | brace
  | paren
  | bracket
  deriving DecidableEq, Repr

/-- A lexical token tree, after `proc_macro2::TokenTree`: identifiers (which
include keywords such as `else`, `for`, `in`), punctuation, lifetimes, and
delimited groups.  The boundary resolver consumes exactly one `Tok` per failed
split attempt (`input.parse::<proc_macro2::TokenTree>()` in the source). -/
inductive Tok where
  | ident (s : String)
  | punct (s : String)
  | lifetime (s : String)
  | group (d : Delim) (ts : List Tok)

/-- Modelled from the spec: the host parser's recognition of a
`{ body } else { else-block }` suffix, used speculatively by the resolver.
The source forks the stream, parses a `Block`, peeks the `else` keyword and a
second brace group, and parses the second `Block` (`src/lib.rs:92-104`).
A `Block` is one brace-delimited token group; validation of the statements
inside the group is performed by the external host parser and is abstracted
here, per spec §1 ("recognize block boundaries and the `else` keyword"). -/
def splitsHere : List Tok → Bool
  | Tok.group Delim.brace _ :: Tok.ident e :: Tok.group Delim.brace _ :: _ => e = "else"
  | _ => false

/-- The resolver's scan loop (`src/lib.rs:89-110` and `src/lib.rs:468-489`):
while the input is nonempty, stop as soon as the remainder satisfies
`splitsHere`, otherwise move exactly one token tree from the input into the
accumulator `acc` (the source's `expr_tokens` / `cond_tokens`). -/
def scanSplit (acc : List Tok) : List Tok → List Tok × List Tok
  | [] => (acc, [])
  | t :: rest =>
    if splitsHere (t :: rest) then (acc, t :: rest)
    else scanSplit (acc ++ [t]) rest

/-- Result of the token-level parse of a macro invocation: the driver tokens,
the body block contents, the else block contents. -/
structure Resolved where
  driver : List Tok
  bodyToks : List Tok
  elseToks : List Tok

/-- The shared tail of `ForLoop::parse` and `WhileLoop::parse`
(`src/lib.rs:89-124`, `467-503`), on the token run following the
`in`-keyword (for `for_!`) resp. the optional label (for `while_!`):
run the scan; fail with `emptyMsg` when the accumulator is empty
(`src/lib.rs:113-117`, `492-496`); otherwise parse the body block, the `else`
keyword and the else block from the remainder, failing when the remainder is
exhausted or malformed.  The driver expression itself is kept as its token
run (the external expression parser is permissive here; a stricter parser
only produces more errors, never fewer).  Trailing tokens after the else
block are rejected, as `parse_macro_input!` requires full consumption. -/
def resolveLoop (emptyMsg : String) (ts : List Tok) : Except String Resolved :=
  let p := scanSplit [] ts
  if p.1.isEmpty then .error emptyMsg
  else
    match p.2 with
    | Tok.group Delim.brace b :: Tok.ident e :: Tok.group Delim.brace el :: rest =>
      if e = "else" then
        if rest.isEmpty then .ok ⟨p.1, b, el⟩ else .error "unexpected token"
      else .error "expected else"
    | _ => .error "expected a block"

/-- `ForLoop::parse` after `var in` (`src/lib.rs:89-124`): the empty-driver
diagnostic message is `expected expression after 'in'`. -/
def resolveForLoop (ts : List Tok) : Except String Resolved :=
  resolveLoop "expected expression after \x27in\x27" ts

/-- `WhileLoop::parse` after the optional label (`src/lib.rs:467-503`): the
empty-driver diagnostic message is `expected condition expression`. -/
def resolveWhileLoop (ts : List Tok) : Except String Resolved :=
  resolveLoop "expected condition expression" ts

/-!
The body syntax tree.  This embeds the subset of `syn`'s statement/expression
grammar that the rewriter inspects (`src/lib.rs:136-194`), plus the node the
rewriter inserts (the completion-flag assignment).  Constructs the rewriter
treats opaquely (the `_ => {}` arm) are collapsed into `otherE`.  Runtime data
that the rewriter never inspects is kept as its denotation: an `if` condition
is a boolean, a `match` scrutinee is the index of the selected arm, and a
loop driver is the number of iterations the driver yields (for a `loop`,
which has no driver, the evaluator is fuel-bounded instead).
-/

mutual

/-- Expressions, after `syn::Expr` restricted to the shapes matched by
`modify_breaks_in_expression` (`src/lib.rs:153-193`). -/
inductive ExprA where
  | breakE (lbl : Option String)
  | continueE (lbl : Option String)
  | setFlag
  | otherE
  | blockE (b : BlockA)
  | unsafE (b : BlockA)
  | ifE (c : Bool) (thenB : BlockA) (elseB : ElseA)
  | matchE (sel : Nat) (arms : ArmsA)
  | forLoopE (lbl : Option String) (iters : Nat) (body : BlockA)
  | whileE (lbl : Option String) (iters : Nat) (body : BlockA)
  | loopE (lbl : Option String) (body : BlockA)

/-- The else branch of an `if`: absent, or an arbitrary expression
(`syn::ExprIf::else_branch`; a plain else block is `blockE`, an else-if
chain is `ifE`). -/
inductive ElseA where
  | noneE
  | someE (e : ExprA)

/-- Bodies of the arms of a `match` expression. -/
inductive ArmsA where
  | nil
  | cons (a : ExprA) (rest : ArmsA)

/-- Statements, after `syn::Stmt`: expression statements, `let` bindings with
their initializer, items, and statement-position invocations of other
procedural macros. -/
inductive StmtA where
  | exprS (e : ExprA)
  | localS (init : ExprA)
  | itemS
  | macS

/-- A block: the statement list of a `syn::Block`. -/
inductive BlockA where
  | nil
  | cons (s : StmtA) (rest : BlockA)

end

/-- The replacement expression produced for a qualifying break: a block
holding the flag assignment followed by the re-emitted break with its
original label (`src/lib.rs:210-215`, `221-226`), already in parsed form
(the form `syn::parse2` returns for the emitted token stream). -/
def breakReplacement (lbl : Option String) : ExprA :=
  ExprA.blockE (BlockA.cons (StmtA.exprS ExprA.setFlag)
    (BlockA.cons (StmtA.exprS (ExprA.breakE lbl)) BlockA.nil))

/-- `modify_single_break` (`src/lib.rs:198-230`), fused with the
`parse2(replacement).unwrap()` at the call site: classify the break and
return the replacement expression, or `none` to leave the break untouched.
A labeled break is compared against the construct's label only when the
construct has one (`src/lib.rs:203-209`); an unlabeled break is rewritten
exactly when `this_is_my_loop` holds (`src/lib.rs:216-226`). -/
def modify_single_break (breaksLabel : Option String) (this_is_my_loop : Bool)
    (loopsLabel : Option String) : Option ExprA :=
  match breaksLabel with
  | some bl =>
    match loopsLabel with
    | some l => if bl ≠ l then none else some (breakReplacement (some bl))
    | none => some (breakReplacement (some bl))
  | none =>
    if !this_is_my_loop then none
    else some (breakReplacement none)

mutual

/-- `modify_breaks_in_expression` (`src/lib.rs:148-194`): rewrite a break in
place when `modify_single_break` classifies it as qualifying; descend into
plain blocks and scoped blocks with the same context; descend into the then
branch of an `if`, and into the else branch only when it is a plain block;
descend into every match arm; descend into the bodies of nested
for/while/loop constructs with `this_is_my_loop` forced to `false`; leave
every other shape untouched. -/
def modify_breaks_in_expression (e : ExprA) (this_is_my_loop : Bool)
    (loopsLabel : Option String) : ExprA :=
  match e with
  | ExprA.breakE bl =>
    match modify_single_break bl this_is_my_loop loopsLabel with
    | some r => r
    | none => ExprA.breakE bl
  | ExprA.blockE b => ExprA.blockE (modify_breaks_in_block b this_is_my_loop loopsLabel)
  | ExprA.unsafE b => ExprA.unsafE (modify_breaks_in_block b this_is_my_loop loopsLabel)
  | ExprA.ifE c t els =>
    ExprA.ifE c (modify_breaks_in_block t this_is_my_loop loopsLabel)
      (modify_breaks_in_elseb els this_is_my_loop loopsLabel)
  | ExprA.matchE sel arms =>
    ExprA.matchE sel (modify_breaks_in_arms arms this_is_my_loop loopsLabel)
  | ExprA.forLoopE lbl n b => ExprA.forLoopE lbl n (modify_breaks_in_block b false loopsLabel)
  | ExprA.whileE lbl n b => ExprA.whileE lbl n (modify_breaks_in_block b false loopsLabel)
  | ExprA.loopE lbl b => ExprA.loopE lbl (modify_breaks_in_block b false loopsLabel)
  | other => other

/-- The else-branch handling inside the `Expr::If` arm of
`modify_breaks_in_expression` (`src/lib.rs:172-176`), factored out by name:
when the else branch is present and is a plain block expression
(`Expr::Block`), descend into that block with the same context; any other
else branch — in particular an `Expr::If`, i.e. an `else if` chain — is
returned unchanged. -/
def modify_breaks_in_elseb (els : ElseA) (this_is_my_loop : Bool)
    (loopsLabel : Option String) : ElseA :=
  match els with
  | ElseA.someE (ExprA.blockE b) =>
    ElseA.someE (ExprA.blockE (modify_breaks_in_block b this_is_my_loop loopsLabel))
  | other => other

/-- The `for arm in arms` loop inside the `Expr::Match` case of
`modify_breaks_in_expression` (`src/lib.rs:178-182`). -/
def modify_breaks_in_arms (arms : ArmsA) (this_is_my_loop : Bool)
    (loopsLabel : Option String) : ArmsA :=
  match arms with
  | ArmsA.nil => ArmsA.nil
  | ArmsA.cons a rest =>
    ArmsA.cons (modify_breaks_in_expression a this_is_my_loop loopsLabel)
      (modify_breaks_in_arms rest this_is_my_loop loopsLabel)

/-- `modify_breaks_in_block` (`src/lib.rs:136-146`): visit each statement of
the block in order, descending only into `Stmt::Expr` statements and leaving
every other statement unchanged. -/
def modify_breaks_in_block (b : BlockA) (this_is_my_loop : Bool)
    (loopsLabel : Option String) : BlockA :=
  match b with
  | BlockA.nil => BlockA.nil
  | BlockA.cons (StmtA.exprS e) rest =>
    BlockA.cons (StmtA.exprS (modify_breaks_in_expression e this_is_my_loop loopsLabel))
      (modify_breaks_in_block rest this_is_my_loop loopsLabel)
  | BlockA.cons s rest =>
    BlockA.cons s (modify_breaks_in_block rest this_is_my_loop loopsLabel)

end

/-!
Runtime semantics of the embedded syntax, used to execute the generated code
on concrete inputs.  The only mutable state relevant to the claims is the
completion flag `_for_else_break_occurred` declared by the expansion; all
other side effects of a body are opaque.  Evaluation is fuel-bounded (`none`
means the fuel ran out) since a native `loop` has no bound of its own.
-/

/-- How the evaluation of a statement sequence ended: normal fall-through,
or a `break`/`continue` carrying its optional label, propagating outward
until a loop construct catches it. -/
inductive Outcome where
  | normal
  | brk (lbl : Option String)
  | cont (lbl : Option String)
  deriving DecidableEq, Repr

/-- Select the arm a `match` scrutinee picks. -/
def armsGet : ArmsA → Nat → Option ExprA
  | ArmsA.nil, _ => none
  | ArmsA.cons a _, 0 => some a
  | ArmsA.cons _ rest, n + 1 => armsGet rest n

mutual

/-- Evaluate an expression: `flag` is the current value of the completion
flag; the result is the new flag value and the control-flow outcome. -/
def evalE (fuel : Nat) (flag : Bool) (e : ExprA) : Option (Bool × Outcome) :=
  match fuel with
  | 0 => none
  | f + 1 =>
    match e with
    | ExprA.breakE l => some (flag, Outcome.brk l)
    | ExprA.continueE l => some (flag, Outcome.cont l)
    | ExprA.setFlag => some (true, Outcome.normal)
    | ExprA.otherE => some (flag, Outcome.normal)
    | ExprA.blockE b => evalB f flag b
    | ExprA.unsafE b => evalB f flag b
    | ExprA.ifE c t els =>
      if c then evalB f flag t
      else
        match els with
        | ElseA.noneE => some (flag, Outcome.normal)
        | ElseA.someE e2 => evalE f flag e2
    | ExprA.matchE sel arms =>
      match armsGet arms sel with
      | some a => evalE f flag a
      | none => some (flag, Outcome.normal)
    | ExprA.forLoopE lbl n b => evalIter f flag lbl n b
    | ExprA.whileE lbl n b => evalIter f flag lbl n b
    | ExprA.loopE lbl b => evalInf f flag lbl b

/-- Evaluate the statements of a block in order; a non-normal outcome aborts
the rest of the block.  A `let` binding evaluates its initializer (whose
outcome propagates); items and statement-level macro invocations are inert. -/
def evalB (fuel : Nat) (flag : Bool) (b : BlockA) : Option (Bool × Outcome) :=
  match fuel with
  | 0 => none
  | f + 1 =>
    match b with
    | BlockA.nil => some (flag, Outcome.normal)
    | BlockA.cons s rest =>
      match evalS f flag s with
      | some (flag2, Outcome.normal) => evalB f flag2 rest
      | r => r

/-- Evaluate one statement. -/
def evalS (fuel : Nat) (flag : Bool) (s : StmtA) : Option (Bool × Outcome) :=
  match fuel with
  | 0 => none
  | f + 1 =>
    match s with
    | StmtA.exprS e => evalE f flag e
    | StmtA.localS init => evalE f flag init
    | StmtA.itemS => some (flag, Outcome.normal)
    | StmtA.macS => some (flag, Outcome.normal)

/-- Run a driver-bounded loop (a native `for` over a driver yielding `n`
items, or a native `while` whose condition holds for the first `n` checks),
carrying the loop's optional label: an unlabeled break or continue, or one
labeled with this loop's label, is caught here; any other labeled
break/continue propagates outward. -/
def evalIter (fuel : Nat) (flag : Bool) (lbl : Option String) (n : Nat)
    (b : BlockA) : Option (Bool × Outcome) :=
  match fuel with
  | 0 => none
  | f + 1 =>
    match n with
    | 0 => some (flag, Outcome.normal)
    | m + 1 =>
      match evalB f flag b with
      | some (flag2, Outcome.normal) => evalIter f flag2 lbl m b
      | some (flag2, Outcome.cont none) => evalIter f flag2 lbl m b
      | some (flag2, Outcome.cont (some l)) =>
        if lbl = some l then evalIter f flag2 lbl m b
        else some (flag2, Outcome.cont (some l))
      | some (flag2, Outcome.brk none) => some (flag2, Outcome.normal)
      | some (flag2, Outcome.brk (some l)) =>
        if lbl = some l then some (flag2, Outcome.normal)
        else some (flag2, Outcome.brk (some l))
      | none => none

/-- Run a native unconditional `loop`, which only terminates through a break
it catches. -/
def evalInf (fuel : Nat) (flag : Bool) (lbl : Option String) (b : BlockA) :
    Option (Bool × Outcome) :=
  match fuel with
  | 0 => none
  | f + 1 =>
    match evalB f flag b with
    | some (flag2, Outcome.normal) => evalInf f flag2 lbl b
    | some (flag2, Outcome.cont none) => evalInf f flag2 lbl b
    | some (flag2, Outcome.cont (some l)) =>
      if lbl = some l then evalInf f flag2 lbl b
      else some (flag2, Outcome.cont (some l))
    | some (flag2, Outcome.brk none) => some (flag2, Outcome.normal)
    | some (flag2, Outcome.brk (some l)) =>
      if lbl = some l then some (flag2, Outcome.normal)
      else some (flag2, Outcome.brk (some l))
    | none => none

end

/-- Run the code emitted by `for_` (`src/lib.rs:404-440`) for a construct
with optional label `lbl`, a driver yielding `iters` items, body `body` and
some else block: the flag starts `false`, the (optionally labeled) native
for loop runs the rewritten body, and the else block runs exactly when the
loop expression finishes normally with the flag still `false`.  Returns
whether the else block executed (`none` when fuel ran out; a break or
continue labeled for an enclosing construct skips the else block, since it
transfers control past the emitted `if`). -/
def elseExecuted (fuel : Nat) (lbl : Option String) (iters : Nat)
    (body : BlockA) : Option Bool :=
  match evalE fuel false (ExprA.forLoopE lbl iters
      (modify_breaks_in_block body true lbl)) with
  | some (flag, Outcome.normal) => some (!flag)
  | some (_, _) => some false
  | none => none

/-- Reference semantics of the claim `else executed iff the loop ran to
exhaustion without a qualifying break`: run the ORIGINAL (unrewritten) body
under the construct's native loop and report whether the driver was
exhausted without the loop being terminated or escaped by any break (a
break that this loop catches is exactly a break targeting the construct:
unlabeled, or labeled with the construct's label). -/
def runsToExhaustion (fuel : Nat) (lbl : Option String) (n : Nat)
    (body : BlockA) : Option Bool :=
  match fuel with
  | 0 => none
  | f + 1 =>
    match n with
    | 0 => some true
    | m + 1 =>
      match evalB f false body with
      | some (_, Outcome.normal) => runsToExhaustion f lbl m body
      | some (_, Outcome.cont none) => runsToExhaustion f lbl m body
      | some (_, Outcome.cont (some l)) =>
        if lbl = some l then runsToExhaustion f lbl m body else some false
      | some (_, Outcome.brk _) => some false
      | none => none


/-!
Emission shape of the two macros.  `quote!` produces a token stream in which
interpolated syntax nodes are rendered by `ToTokens`; the output is modelled
as a stream of quoted tokens in which an interpolated `syn::Block` (which
renders as one brace-delimited group holding its statements) is kept as a
block splice, and the interpolated pattern/driver expression (held as token
runs by the resolver model) splices as raw tokens.
-/

/-- A token of the emitted stream: a raw token written literally in the
`quote!` template, a delimited group written in the template, or a spliced
(interpolated) parsed block. -/
inductive QTok where
  | raw (t : Tok)
  | grp (d : Delim) (qs : List QTok)
  | blk (b : BlockA)

/-- Tokens of `let mut _for_else_break_occurred = false;`
(`src/lib.rs:420`, `430`, `690`, `700`). -/
def flagLetQ : List QTok :=
  [QTok.raw (Tok.ident "let"), QTok.raw (Tok.ident "mut"),
   QTok.raw (Tok.ident "_for_else_break_occurred"), QTok.raw (Tok.punct "="),
   QTok.raw (Tok.ident "false"), QTok.raw (Tok.punct ";")]

/-- Tokens of `if !_for_else_break_occurred` (`src/lib.rs:423`, `433`,
`693`, `703`). -/
def ifNotFlagQ : List QTok :=
  [QTok.raw (Tok.ident "if"), QTok.raw (Tok.punct "!"),
   QTok.raw (Tok.ident "_for_else_break_occurred")]

/-- Rendering of an interpolated `syn::Label` (`#label`): the lifetime
followed by a colon. -/
def labelQ : Option String → List QTok
  | none => []
  | some l => [QTok.raw (Tok.lifetime l), QTok.raw (Tok.punct ":")]

/-- The body of `for_` (`src/lib.rs:404-440`): rewrite the breaks of the
parsed body with `this_is_my_loop = true` and the construct's label, then
emit, in one enclosing block, the flag declaration, the (optionally
labeled) native for loop over the driver with the rewritten body, and the
flag-guarded else block.  The two `quote!` branches of the source are
mirrored by the match on the label. -/
def for_expand (lbl : Option String) (var expr : List Tok)
    (body elseBlock : BlockA) : List QTok :=
  let b := modify_breaks_in_block body true lbl
  match lbl with
  | some l =>
    [QTok.grp Delim.brace (flagLetQ ++
      [QTok.raw (Tok.lifetime l), QTok.raw (Tok.punct ":"),
       QTok.raw (Tok.ident "for")] ++ var.map QTok.raw ++
      [QTok.raw (Tok.ident "in")] ++ expr.map QTok.raw ++
      [QTok.blk b] ++ ifNotFlagQ ++ [QTok.blk elseBlock])]
  | none =>
    [QTok.grp Delim.brace (flagLetQ ++
      [QTok.raw (Tok.ident "for")] ++ var.map QTok.raw ++
      [QTok.raw (Tok.ident "in")] ++ expr.map QTok.raw ++
      [QTok.blk b] ++ ifNotFlagQ ++ [QTok.blk elseBlock])]

/-- The body of `while_` (`src/lib.rs:676-710`): as `for_expand`, with a
native while loop over the condition tokens. -/
def while_expand (lbl : Option String) (cond : List Tok)
    (body elseBlock : BlockA) : List QTok :=
  let b := modify_breaks_in_block body true lbl
  match lbl with
  | some l =>
    [QTok.grp Delim.brace (flagLetQ ++
      [QTok.raw (Tok.lifetime l), QTok.raw (Tok.punct ":"),
       QTok.raw (Tok.ident "while")] ++ cond.map QTok.raw ++
      [QTok.blk b] ++ ifNotFlagQ ++ [QTok.blk elseBlock])]
  | none =>
    [QTok.grp Delim.brace (flagLetQ ++
      [QTok.raw (Tok.ident "while")] ++ cond.map QTok.raw ++
      [QTok.blk b] ++ ifNotFlagQ ++ [QTok.blk elseBlock])]

/-- Modelled from the spec (§6, Emitted shape): one enclosing block holding
the completion-flag initialization to false, the optional label, the native
loop header, the loop body, and the else block guarded by the negated flag:
`completion_flag := false; <label>? loop-construct(driver) { body };
if not completion_flag { else }`. -/
def specEmission (lbl : Option String) (loopHeader : List QTok)
    (body elseBlock : BlockA) : List QTok :=
  [QTok.grp Delim.brace (flagLetQ ++ labelQ lbl ++ loopHeader ++
    [QTok.blk body] ++ ifNotFlagQ ++ [QTok.blk elseBlock])]

/-- Header tokens of a native for loop over the given pattern and driver. -/
def forHeaderQ (var expr : List Tok) : List QTok :=
  [QTok.raw (Tok.ident "for")] ++ var.map QTok.raw ++
    [QTok.raw (Tok.ident "in")] ++ expr.map QTok.raw

/-- Header tokens of a native while loop over the given condition. -/
def whileHeaderQ (cond : List Tok) : List QTok :=
  [QTok.raw (Tok.ident "while")] ++ cond.map QTok.raw

/-!
Token-level form of the replacement emitted for a qualifying break
(`quote!` in `modify_single_break`, `src/lib.rs:210-215` and `221-226`),
and a recognizer for the fragment of the host expression grammar needed to
check that this token stream is a well-formed expression.
-/

/-- The token stream `{ _for_else_break_occurred = true; break <label>?; }`
emitted by `modify_single_break` for a qualifying break carrying the given
original label. -/
def replacementTokens (lbl : Option String) : List Tok :=
  [Tok.group Delim.brace
    ([Tok.ident "_for_else_break_occurred", Tok.punct "=", Tok.ident "true",
      Tok.punct ";", Tok.ident "break"] ++
     (match lbl with | some l => [Tok.lifetime l] | none => []) ++
     [Tok.punct ";"])]

/-- The classification part of `modify_single_break` (`src/lib.rs:198-230`)
paired with the token stream it emits, before the call site's
`parse2::<Expr>` (`src/lib.rs:157`). -/
def modify_single_break_tokens (breaksLabel : Option String)
    (this_is_my_loop : Bool) (loopsLabel : Option String) :
    Option (List Tok) :=
  match breaksLabel with
  | some bl =>
    match loopsLabel with
    | some l => if bl ≠ l then none else some (replacementTokens (some bl))
    | none => some (replacementTokens (some bl))
  | none =>
    if !this_is_my_loop then none
    else some (replacementTokens none)

/-- Modelled from the spec: the external host parser's statement grammar,
restricted to a sound fragment (an accepted sequence is a well-formed Rust
statement sequence): assignments of a literal to a place identifier, and
break statements with an optional label.  Used only to certify that the
replacement stream parses. -/
def stmtSeqOkTok : List Tok → Bool
  | [] => true
  | Tok.ident "break" :: Tok.lifetime _ :: Tok.punct ";" :: rest => stmtSeqOkTok rest
  | Tok.ident "break" :: Tok.punct ";" :: rest => stmtSeqOkTok rest
  | Tok.ident "break" :: _ => false
  | Tok.ident _ :: Tok.punct "=" :: Tok.ident "true" :: Tok.punct ";" :: rest =>
    stmtSeqOkTok rest
  | _ => false

/-- Modelled from the spec: a token stream parses as a single expression
when it is one brace-delimited block expression whose contents are a
well-formed statement sequence. -/
def parsesAsExprTok : List Tok → Bool
  | [Tok.group Delim.brace inner] => stmtSeqOkTok inner
  | _ => false

/-!
Helper predicates and accessors used by the theorems.
-/

/-- Index into a block's statement list. -/
def blockGet : BlockA → Nat → Option StmtA
  | BlockA.nil, _ => none
  | BlockA.cons s _, 0 => some s
  | BlockA.cons _ rest, n + 1 => blockGet rest n

/-- Whether a statement is an expression statement (`syn::Stmt::Expr`), the
only statement kind the rewrite walk descends into. -/
def isExprStmt : StmtA → Bool
  | StmtA.exprS _ => true
  | _ => false

mutual

/-- No labeled break occurs in any walk-reachable position of the
expression. -/
def noLabE : ExprA → Bool
  | ExprA.breakE (some _) => false
  | ExprA.breakE none => true
  | ExprA.continueE _ => true
  | ExprA.setFlag => true
  | ExprA.otherE => true
  | ExprA.blockE b => noLabB b
  | ExprA.unsafE b => noLabB b
  | ExprA.ifE _ t els => noLabB t && noLabElse els
  | ExprA.matchE _ arms => noLabArms arms
  | ExprA.forLoopE _ _ b => noLabB b
  | ExprA.whileE _ _ b => noLabB b
  | ExprA.loopE _ b => noLabB b

/-- No labeled break in the else branch. -/
def noLabElse : ElseA → Bool
  | ElseA.noneE => true
  | ElseA.someE e => noLabE e

/-- No labeled break in any match arm. -/
def noLabArms : ArmsA → Bool
  | ArmsA.nil => true
  | ArmsA.cons a rest => noLabE a && noLabArms rest

/-- No labeled break in any walk-reachable position of the block (walks do
not descend into non-expression statements, so those are not constrained). -/
def noLabB : BlockA → Bool
  | BlockA.nil => true
  | BlockA.cons (StmtA.exprS e) rest => noLabE e && noLabB rest
  | BlockA.cons _ rest => noLabB rest

end

/-- Pointwise map over match-arm bodies, used to state that the rewrite
visits every arm. -/
def mapArms (f : ExprA → ExprA) : ArmsA → ArmsA
  | ArmsA.nil => ArmsA.nil
  | ArmsA.cons a rest => ArmsA.cons (f a) (mapArms f rest)

/-- Index of the first position at which the suffix of the token run
satisfies `splitsHere` (the length of the run when no position does);
the specification's SplitPoint. -/
def firstSplit : List Tok → Nat
  | [] => 0
  | t :: rest => if splitsHere (t :: rest) then 0 else firstSplit rest + 1

/-- Whether a resolver result is an error. -/
def isErrorR : Except String Resolved → Bool
  | Except.error _ => true
  | Except.ok _ => false

/-- Concrete body used by the failing inputs of C1 and C2: the body of
`for_! { i in 0..1 { \x27inner: loop { break \x27inner; } } else { .. } }`,
an unlabeled construct whose body is a nested labeled loop broken by an
explicitly labeled break targeting that nested loop. -/
def nestedLabeledLoopBody : BlockA :=
  BlockA.cons (StmtA.exprS (ExprA.loopE (some "inner")
    (BlockA.cons (StmtA.exprS (ExprA.breakE (some "inner"))) BlockA.nil)))
    BlockA.nil

/-- Concrete body used by the failing input of C3: the body of
`for_! { i in 0..2 { if c1 { } else if c2 { break; } } else { .. } }`
with `c1` false and `c2` true, i.e. an if whose else branch is another if
(an else-if chain) containing an unlabeled break. -/
def elseIfBreakBody : BlockA :=
  BlockA.cons (StmtA.exprS (ExprA.ifE false BlockA.nil
    (ElseA.someE (ExprA.ifE true
      (BlockA.cons (StmtA.exprS (ExprA.breakE none)) BlockA.nil)
      ElseA.noneE))))
    BlockA.nil

/-!
Theorems.  General lemmas about the embedded definitions first, then one
theorem per claim of the specification review.
-/

/-- The scan loop computes the leftmost split: starting from accumulator
`acc` it returns the consumed prefix appended to `acc` and the remainder
starting at `firstSplit`. -/
theorem scanSplit_eq : ∀ (ts acc : List Tok),
    scanSplit acc ts = (acc ++ ts.take (firstSplit ts), ts.drop (firstSplit ts))
  | [], acc => by simp [scanSplit, firstSplit]
  | t :: rest, acc => by
    by_cases h : splitsHere (t :: rest) = true
    · simp [scanSplit, firstSplit, h]
    · simp only [Bool.not_eq_true] at h
      simp [scanSplit, firstSplit, h, scanSplit_eq rest (acc ++ [t]),
        List.append_assoc]

/-- No position strictly before `firstSplit` admits a split. -/
theorem splitsHere_lt_firstSplit : ∀ (ts : List Tok) (j : Nat),
    j < firstSplit ts → splitsHere (ts.drop j) = false
  | [], j, hj => by simp [firstSplit] at hj
  | t :: rest, j, hj => by
    by_cases h : splitsHere (t :: rest) = true
    · simp [firstSplit, h] at hj
    · simp only [Bool.not_eq_true] at h
      match j with
      | 0 => simpa using h
      | j + 1 =>
        simp only [firstSplit, h, if_false, Bool.false_eq_true] at hj
        exact splitsHere_lt_firstSplit rest j (by omega)

/-- The suffix at `firstSplit` admits a split exactly when the scan did not
run off the end of the token run. -/
theorem splitsHere_at_firstSplit : ∀ ts : List Tok,
    splitsHere (ts.drop (firstSplit ts)) = !(ts.drop (firstSplit ts)).isEmpty
  | [] => by simp [firstSplit, splitsHere]
  | t :: rest => by
    by_cases h : splitsHere (t :: rest) = true
    · simp [firstSplit, h]
    · simp only [Bool.not_eq_true] at h
      simpa [firstSplit, h] using splitsHere_at_firstSplit rest

mutual

/-- With `this_is_my_loop` already false (inside a nested loop construct),
the walk is the identity on any expression whose walk-reachable breaks are
all unlabeled. -/
theorem noLab_fix_expr : ∀ (e : ExprA) (ll : Option String), noLabE e = true →
    modify_breaks_in_expression e false ll = e
  | ExprA.breakE none, _, _ => rfl
  | ExprA.breakE (some _), _, h => by simp [noLabE] at h
  | ExprA.continueE _, _, _ => rfl
  | ExprA.setFlag, _, _ => rfl
  | ExprA.otherE, _, _ => rfl
  | ExprA.blockE b, ll, h => congrArg ExprA.blockE (noLab_fix_block b ll h)
  | ExprA.unsafE b, ll, h => congrArg ExprA.unsafE (noLab_fix_block b ll h)
  | ExprA.ifE c t els, ll, h => by
    have h2 : (noLabB t && noLabElse els) = true := h
    rw [Bool.and_eq_true] at h2
    show ExprA.ifE c (modify_breaks_in_block t false ll)
      (modify_breaks_in_elseb els false ll) = ExprA.ifE c t els
    rw [noLab_fix_block t ll h2.1, noLab_fix_elseb els ll h2.2]
  | ExprA.matchE sel arms, ll, h =>
    congrArg (ExprA.matchE sel) (noLab_fix_arms arms ll h)
  | ExprA.forLoopE lbl n b, ll, h =>
    congrArg (ExprA.forLoopE lbl n) (noLab_fix_block b ll h)
  | ExprA.whileE lbl n b, ll, h =>
    congrArg (ExprA.whileE lbl n) (noLab_fix_block b ll h)
  | ExprA.loopE lbl b, ll, h =>
    congrArg (ExprA.loopE lbl) (noLab_fix_block b ll h)

/-- As `noLab_fix_expr`, for the else branch of an if. -/
theorem noLab_fix_elseb : ∀ (els : ElseA) (ll : Option String), noLabElse els = true →
    modify_breaks_in_elseb els false ll = els
  | ElseA.noneE, _, _ => rfl
  | ElseA.someE (ExprA.blockE b), ll, h =>
    congrArg (fun x => ElseA.someE (ExprA.blockE x)) (noLab_fix_block b ll h)
  | ElseA.someE (ExprA.breakE _), _, _ => rfl
  | ElseA.someE (ExprA.continueE _), _, _ => rfl
  | ElseA.someE ExprA.setFlag, _, _ => rfl
  | ElseA.someE ExprA.otherE, _, _ => rfl
  | ElseA.someE (ExprA.unsafE _), _, _ => rfl
  | ElseA.someE (ExprA.ifE _ _ _), _, _ => rfl
  | ElseA.someE (ExprA.matchE _ _), _, _ => rfl
  | ElseA.someE (ExprA.forLoopE _ _ _), _, _ => rfl
  | ElseA.someE (ExprA.whileE _ _ _), _, _ => rfl
  | ElseA.someE (ExprA.loopE _ _), _, _ => rfl

/-- As `noLab_fix_expr`, for the arm list of a match. -/
theorem noLab_fix_arms : ∀ (arms : ArmsA) (ll : Option String), noLabArms arms = true →
    modify_breaks_in_arms arms false ll = arms
  | ArmsA.nil, _, _ => rfl
  | ArmsA.cons a rest, ll, h => by
    have h2 : (noLabE a && noLabArms rest) = true := h
    rw [Bool.and_eq_true] at h2
    show ArmsA.cons (modify_breaks_in_expression a false ll)
      (modify_breaks_in_arms rest false ll) = ArmsA.cons a rest
    rw [noLab_fix_expr a ll h2.1, noLab_fix_arms rest ll h2.2]

/-- As `noLab_fix_expr`, for a block. -/
theorem noLab_fix_block : ∀ (b : BlockA) (ll : Option String), noLabB b = true →
    modify_breaks_in_block b false ll = b
  | BlockA.nil, _, _ => rfl
  | BlockA.cons (StmtA.exprS e) rest, ll, h => by
    have h2 : (noLabE e && noLabB rest) = true := h
    rw [Bool.and_eq_true] at h2
    show BlockA.cons (StmtA.exprS (modify_breaks_in_expression e false ll))
      (modify_breaks_in_block rest false ll) = BlockA.cons (StmtA.exprS e) rest
    rw [noLab_fix_expr e ll h2.1, noLab_fix_block rest ll h2.2]
  | BlockA.cons (StmtA.localS i) rest, ll, h =>
    congrArg (BlockA.cons (StmtA.localS i)) (noLab_fix_block rest ll h)
  | BlockA.cons StmtA.itemS rest, ll, h =>
    congrArg (BlockA.cons StmtA.itemS) (noLab_fix_block rest ll h)
  | BlockA.cons StmtA.macS rest, ll, h =>
    congrArg (BlockA.cons StmtA.macS) (noLab_fix_block rest ll h)

end

/-- The walk over match arms is the pointwise map of the walk over each
arm's body. -/
theorem modArms_eq_map : ∀ (arms : ArmsA) (tim : Bool) (ll : Option String),
    modify_breaks_in_arms arms tim ll
      = mapArms (fun a => modify_breaks_in_expression a tim ll) arms
  | ArmsA.nil, _, _ => rfl
  | ArmsA.cons a rest, tim, ll => by
    show ArmsA.cons _ (modify_breaks_in_arms rest tim ll) = ArmsA.cons _ _
    rw [modArms_eq_map rest tim ll]

/-- When the scan consumed the whole run without a split, the resolver
fails (the body-block parse finds no block). -/
theorem resolveLoop_error_no_split (msg : String) (ts : List Tok)
    (h : (scanSplit [] ts).2 = []) : isErrorR (resolveLoop msg ts) = true := by
  unfold resolveLoop
  dsimp only
  rw [h]
  split <;> rfl

/-- When the scan consumed nothing, the resolver fails with exactly the
supplied empty-driver message. -/
theorem resolveLoop_error_empty_driver (msg : String) (ts : List Tok)
    (h : (scanSplit [] ts).1 = []) : resolveLoop msg ts = Except.error msg := by
  unfold resolveLoop
  dsimp only
  rw [h]
  rfl

/-- C1.  The claim states that the else block executes iff the loop body
runs to exhaustion without ever executing a break that targets this
construct.  The code violates it: on the unlabeled construct
`for_! { i in 0..1 { \x27inner: loop { break \x27inner; } } else { .. } }`
the native loop runs to exhaustion and no break targets the construct
(`break \x27inner` targets the nested labeled loop), yet the rewriter sets
the completion flag on that foreign labeled break (see C2), so the emitted
guard finds the flag raised and the else block is skipped. -/
theorem else_skipped_despite_exhaustion_on_foreign_labeled_break :
    runsToExhaustion 30 none 1 nestedLabeledLoopBody = some true
    ∧ elseExecuted 30 none 1 nestedLabeledLoopBody = some false :=
  ⟨rfl, rfl⟩

/-- C2.  The claim states a labeled break is rewritten iff its label equals
the construct's own label, and in particular that with an unlabeled
construct every labeled break is left untouched.  The code violates it:
`modify_single_break` checks label equality only when the construct has a
label (`src/lib.rs:205-209`), so with `loops_label = None` the walk
rewrites the nested loop's `break \x27inner` (inserting the flag-set) even
though the walk is inside a nested loop (`this_is_my_loop = false`) and no
label matches. -/
theorem labeled_break_rewritten_under_unlabeled_construct :
    modify_breaks_in_block nestedLabeledLoopBody true none
      = BlockA.cons (StmtA.exprS (ExprA.loopE (some "inner")
          (BlockA.cons (StmtA.exprS (breakReplacement (some "inner"))) BlockA.nil)))
          BlockA.nil :=
  rfl

/-- C3.  The claim states the walk descends into both branches of a
conditional, including an else branch that is itself another if (an
else-if chain).  The code violates it: the else branch is descended only
when it is a plain block (`src/lib.rs:172-176`), so on the body
`if c1 { } else if c2 { break; }` the walk returns the body unchanged and
the break keeps no flag-set; running the construct on a driver of two
items with `c1` false and `c2` true, the break terminates the loop and
the else block nevertheless executes. -/
theorem else_if_break_not_rewritten :
    modify_breaks_in_block elseIfBreakBody true none = elseIfBreakBody
    ∧ elseExecuted 30 none 2 elseIfBreakBody = some true
    ∧ runsToExhaustion 30 none 2 elseIfBreakBody = some false :=
  ⟨rfl, rfl, rfl⟩

/-- C4.  An unlabeled break is rewritten iff `this_is_my_loop` is still
true; the walk descends into the body of a nested for/while/loop construct
with `this_is_my_loop` forced to false and the own label unchanged; and
under `this_is_my_loop = false` a body whose walk-reachable breaks are all
unlabeled passes through the walk completely unchanged, so an unlabeled
break inside a nested loop is never rewritten by the outer construct and
never sets its completion flag. -/
theorem unlabeled_break_scope_classification (lbl ll : Option String) (n : Nat)
    (b : BlockA) (tim : Bool) :
    modify_breaks_in_expression (ExprA.forLoopE lbl n b) tim ll
      = ExprA.forLoopE lbl n (modify_breaks_in_block b false ll)
    ∧ modify_breaks_in_expression (ExprA.whileE lbl n b) tim ll
      = ExprA.whileE lbl n (modify_breaks_in_block b false ll)
    ∧ modify_breaks_in_expression (ExprA.loopE lbl b) tim ll
      = ExprA.loopE lbl (modify_breaks_in_block b false ll)
    ∧ modify_single_break none true ll = some (breakReplacement none)
    ∧ modify_single_break none false ll = none
    ∧ (noLabB b = true → modify_breaks_in_block b false ll = b) :=
  ⟨rfl, rfl, rfl, rfl, rfl, fun h => noLab_fix_block b ll h⟩

/-- C5.  The boundary resolver's scan returns the prefix before the first
(leftmost) index at which the remainder has the `Block else Block` shape,
together with the remainder from that index on: no earlier index admits a
split, and the chosen index admits one exactly when the run was not
exhausted.  The scan is a function of the token run alone, so repeated
resolution of the same run yields the same split even when several indices
admit one. -/
theorem resolver_picks_leftmost_split (ts : List Tok) :
    scanSplit [] ts = (ts.take (firstSplit ts), ts.drop (firstSplit ts))
    ∧ ((List.range (firstSplit ts)).all fun j => !splitsHere (ts.drop j)) = true
    ∧ splitsHere (ts.drop (firstSplit ts)) = !(ts.drop (firstSplit ts)).isEmpty := by
  refine ⟨by simpa using scanSplit_eq ts [], ?_, splitsHere_at_firstSplit ts⟩
  rw [List.all_eq_true]
  intro j hj
  rw [List.mem_range] at hj
  simp [splitsHere_lt_firstSplit ts j hj]

/-- C5 witness: a run with two valid split indices (0 and 2); the scan
chooses the leftmost, index 0. -/
theorem resolver_picks_leftmost_split_example :
    scanSplit [] [Tok.group Delim.brace [], Tok.ident "else",
        Tok.group Delim.brace [], Tok.ident "else", Tok.group Delim.brace []]
      = ([], [Tok.group Delim.brace [], Tok.ident "else",
        Tok.group Delim.brace [], Tok.ident "else", Tok.group Delim.brace []]) :=
  (resolver_picks_leftmost_split [Tok.group Delim.brace [], Tok.ident "else",
    Tok.group Delim.brace [], Tok.ident "else", Tok.group Delim.brace []]).1

/-- C6.  Each macro's expansion (for every combination of label presence,
pattern, driver tokens, body and else block) is exactly the spec's emitted
shape: one enclosing block holding the flag initialized to false, the
optionally labeled native for loop (iterator driver) resp. native while
loop (boolean driver) over the rewritten body, and the else block guarded
by the negated flag. -/
theorem expansion_matches_spec_shape (lbl : Option String)
    (var expr cond : List Tok) (body elseBlock : BlockA) :
    for_expand lbl var expr body elseBlock
      = specEmission lbl (forHeaderQ var expr)
          (modify_breaks_in_block body true lbl) elseBlock
    ∧ while_expand lbl cond body elseBlock
      = specEmission lbl (whileHeaderQ cond)
          (modify_breaks_in_block body true lbl) elseBlock := by
  cases lbl <;> constructor <;>
    simp [for_expand, while_expand, specEmission, labelQ, forHeaderQ, whileHeaderQ]

/-- C7.  The walk on a match expression descends into every arm's body
with the same context (it is the pointwise map of the walk over the arm
list), and an arm that is a bare break is classified and rewritten by
exactly the same `modify_breaks_in_expression` call that a block-wrapped
break receives inside its block — the block-wrapped form rewrites to the
wrap of the bare form's result, and either way the replacement is a single
expression valid in arm position. -/
theorem match_arms_descend_uniformly (sel : Nat) (arms : ArmsA) (tim : Bool)
    (ll bl : Option String) :
    modify_breaks_in_expression (ExprA.matchE sel arms) tim ll
      = ExprA.matchE sel (mapArms (fun a => modify_breaks_in_expression a tim ll) arms)
    ∧ modify_breaks_in_expression
        (ExprA.blockE (BlockA.cons (StmtA.exprS (ExprA.breakE bl)) BlockA.nil)) tim ll
      = ExprA.blockE (BlockA.cons
          (StmtA.exprS (modify_breaks_in_expression (ExprA.breakE bl) tim ll))
          BlockA.nil) := by
  constructor
  · show ExprA.matchE sel (modify_breaks_in_arms arms tim ll) = _
    rw [modArms_eq_map]
  · rfl

/-- C8.  Whenever the scan exhausts the token run without finding a valid
split, both resolvers fail with an error; whenever the driver accumulator
is empty, the failure carries exactly the message
`expected expression after 'in'` for `for_!` and
`expected condition expression` for `while_!`.  No success value (hence no
partial expansion) is produced in either case. -/
theorem resolver_failure_conditions (ts : List Tok) :
    ((scanSplit [] ts).2 = [] →
      isErrorR (resolveForLoop ts) = true ∧ isErrorR (resolveWhileLoop ts) = true)
    ∧ ((scanSplit [] ts).1 = [] →
      resolveForLoop ts = Except.error "expected expression after \x27in\x27"
      ∧ resolveWhileLoop ts = Except.error "expected condition expression") := by
  constructor
  · intro h
    exact ⟨resolveLoop_error_no_split _ ts h, resolveLoop_error_no_split _ ts h⟩
  · intro h
    exact ⟨resolveLoop_error_empty_driver _ ts h, resolveLoop_error_empty_driver _ ts h⟩

/-- C9.  The walk maps each statement of a block in place and descends only
into expression statements: every statement that is not an expression
statement (a let binding, an item, a statement-level macro invocation) is
returned unchanged at its position, so a break inside such a statement (for
example in a let initializer) is never rewritten, even at the top level of
the body. -/
theorem non_expression_statements_unchanged : ∀ (b : BlockA) (tim : Bool)
    (ll : Option String) (i : Nat) (s : StmtA),
    blockGet b i = some s → isExprStmt s = false →
    blockGet (modify_breaks_in_block b tim ll) i = some s
  | BlockA.nil, _, _, i, s, h, _ => by simp [blockGet] at h
  | BlockA.cons (StmtA.exprS e) rest, tim, ll, 0, s, h, hn => by
    have h2 : some (StmtA.exprS e) = some s := h
    injection h2 with h3
    rw [← h3] at hn
    simp [isExprStmt] at hn
  | BlockA.cons (StmtA.exprS e) rest, tim, ll, i + 1, s, h, hn =>
    non_expression_statements_unchanged rest tim ll i s h hn
  | BlockA.cons (StmtA.localS i0) rest, _, _, 0, s, h, _ => h
  | BlockA.cons (StmtA.localS i0) rest, tim, ll, i + 1, s, h, hn =>
    non_expression_statements_unchanged rest tim ll i s h hn
  | BlockA.cons StmtA.itemS rest, _, _, 0, s, h, _ => h
  | BlockA.cons StmtA.itemS rest, tim, ll, i + 1, s, h, hn =>
    non_expression_statements_unchanged rest tim ll i s h hn
  | BlockA.cons StmtA.macS rest, _, _, 0, s, h, _ => h
  | BlockA.cons StmtA.macS rest, tim, ll, i + 1, s, h, hn =>
    non_expression_statements_unchanged rest tim ll i s h hn

/-- C9 witness: a let binding whose initializer is an unlabeled break, at
the top of the body with `this_is_my_loop` true, is returned unchanged. -/
theorem non_expression_statements_unchanged_example :
    blockGet (modify_breaks_in_block
        (BlockA.cons (StmtA.localS (ExprA.breakE none)) BlockA.nil) true none) 0
      = some (StmtA.localS (ExprA.breakE none)) :=
  non_expression_statements_unchanged
    (BlockA.cons (StmtA.localS (ExprA.breakE none)) BlockA.nil) true none 0
    (StmtA.localS (ExprA.breakE none)) rfl rfl

/-- C10.  Every token stream `modify_single_break` emits for a qualifying
break — the block holding the flag assignment and the re-emitted break
with its original label — parses as a single expression, so the
`parse2(replacement).unwrap()` at the call site cannot panic. -/
theorem replacement_always_parses : ∀ (bl : Option String) (tim : Bool)
    (ll : Option String) (r : List Tok),
    modify_single_break_tokens bl tim ll = some r → parsesAsExprTok r = true
  | none, false, ll, r, h => by simp [modify_single_break_tokens] at h
  | none, true, ll, r, h => by
    have h2 : some (replacementTokens none) = some r := h
    injection h2 with h3
    rw [← h3]
    rfl
  | some bl, tim, none, r, h => by
    have h2 : some (replacementTokens (some bl)) = some r := h
    injection h2 with h3
    rw [← h3]
    rfl
  | some bl, tim, some l, r, h => by
    simp only [modify_single_break_tokens] at h
    split at h
    · exact absurd h (by simp)
    · injection h with h3
      rw [← h3]
      rfl

/-- C10 witness: the replacement for a qualifying unlabeled break parses. -/
theorem replacement_always_parses_example :
    parsesAsExprTok (replacementTokens none) = true :=
  replacement_always_parses none true none (replacementTokens none) rfl
